import Mathlib

/-!
A shallow embedding of `clex.py` (simple lexical analysis for programming
syntax).  Characters of the input stream are Lean `Char`s; the one-character
strings returned by the Python `read(1)` / stored in the pushback list `_oops`
are modelled as `Option Char`, with `none` standing for the empty string
(the end-of-input signal).  Python strings (tokens, markers) are `List Char`.
-/

namespace Clex

/-- Errors raised by the scanner.  `indexError` and `typeError` model the
CPython runtime errors that the code can raise on degenerate configurations
(empty multi-line-commenter list, empty quote set). -/
inductive LexError where
  | unexpectedToken (c : Char)
  | unexpectedEOF
  | unexpectedEOL (c : Char)
  | indexError
  | typeError
deriving DecidableEq, Repr

/-- The character-acquisition state: the pushback list `_oops` (entries are
one-character strings or the empty string, hence `Option Char`) and the
remaining characters of the input stream. -/
structure LexState where
  oops : List (Option Char)
  stream : List Char
deriving DecidableEq, Repr

/-- `_readone`: pop the front of `_oops` if non-empty, else read one
character from the stream (`none` at end of input). -/
def readone (s : LexState) : Option Char × LexState :=
  match s.oops with
  | o :: rest => (o, { s with oops := rest })
  | [] =>
    match s.stream with
    | [] => (none, s)
    | c :: cs => (some c, { s with stream := cs })

/-- Number of real (non-empty) characters still pending: a termination
measure.  Reading a character strictly decreases it; restoring characters
to `_oops` puts the count back. -/
def LexState.rem (s : LexState) : Nat :=
  (s.oops.filter Option.isSome).length + s.stream.length

/-- Result of `_findtokens`.  Python returns the found token (a string),
`None`, or — for an empty candidate list — the tuple `(token, False)`,
which callers testing `is not None` treat like a successful match. -/
inductive FindResult where
  | found (tok : List Char)
  | emptyPair (tok : List Char)
  | nomatch
deriving DecidableEq, Repr

/-- The caller-side test `ntoken is not None`. -/
def isNotNone : FindResult → Bool
  | .nomatch => false
  | _ => true

/-- `_findtokens_pass`: report whether `token` equals some candidate, and
otherwise the candidates that start with `token` (Python returns `None` as
the remaining list on success; the caller never reads it, we return `[]`). -/
def findtokens_pass (token : List Char) (tokens : List (List Char)) :
    List (List Char) × Bool :=
  if token ∈ tokens then ([], true)
  else (tokens.filter (fun w => token.isPrefixOf w), false)

/-- Reading one real character strictly decreases the pending measure. -/
def readone_some_rem {s : LexState} {c : Char} {s' : LexState}
    (h : readone s = (some c, s')) : s'.rem + 1 = s.rem := by
  obtain ⟨oops, stream⟩ := s
  cases oops with
  | cons o rest =>
    simp only [readone] at h
    obtain ⟨h1, h2⟩ := Prod.mk.injEq .. ▸ h
    subst h1
    subst h2
    simp [LexState.rem, List.filter]
    omega
  | nil =>
    cases stream with
    | nil => simp [readone] at h
    | cons c' cs =>
      simp only [readone] at h
      obtain ⟨h1, h2⟩ := Prod.mk.injEq .. ▸ h
      cases h1
      subst h2
      simp [LexState.rem]

def readone_some_rem_lt {s : LexState} {c : Char} {s' : LexState}
    (h : readone s = (some c, s')) : s'.rem < s.rem := by
  have := readone_some_rem h
  omega

/-- Reading the end-of-input signal leaves the pending measure unchanged. -/
def readone_none_rem {s s' : LexState} (h : readone s = (none, s')) :
    s'.rem = s.rem := by
  obtain ⟨oops, stream⟩ := s
  cases oops with
  | cons o rest =>
    simp only [readone] at h
    obtain ⟨h1, h2⟩ := Prod.mk.injEq .. ▸ h
    subst h1
    subst h2
    simp [LexState.rem, List.filter]
  | nil =>
    cases stream with
    | nil =>
      simp only [readone] at h
      obtain ⟨h1, h2⟩ := Prod.mk.injEq .. ▸ h
      subst h2
      rfl
    | cons c' cs => simp [readone] at h

/-- Appending entries to the back of `_oops` adds their non-empty count to
the pending measure. -/
def rem_append_oops (s : LexState) (l : List (Option Char)) :
    ({ s with oops := s.oops ++ l } : LexState).rem
      = s.rem + (l.filter Option.isSome).length := by
  simp [LexState.rem, List.filter_append]
  omega

def filter_isSome_map_some (l : List Char) :
    ((l.map some).filter Option.isSome).length = l.length := by
  induction l with
  | nil => rfl
  | cons c cs ih => simp [List.filter, ih]

def filter_isSome_tail_map_some (l : List Char) :
    (((l.map some).tail).filter Option.isSome).length = l.length - 1 := by
  cases l with
  | nil => rfl
  | cons c cs => simpa using filter_isSome_map_some cs

/-- The inner `while` loop of `_findtokens`: keep reading while candidates remain;
on failure restore everything read beyond the first character given by the caller. -/
def findtokens_loop (token : List Char) (tokens : List (List Char))
    (s : LexState) : FindResult × LexState :=
  if tokens = [] then
    (.nomatch, { s with oops := s.oops ++ (token.drop 1).map some })
  else
    match h : readone s with
    | (none, s') =>
      (.nomatch, { s' with oops := s'.oops ++ ((token.drop 1).map some ++ [none]) })
    | (some c, s') =>
      if (findtokens_pass (token ++ [c]) tokens).2 then (.found (token ++ [c]), s')
      else findtokens_loop (token ++ [c]) (findtokens_pass (token ++ [c]) tokens).1 s'
termination_by s.rem
decreasing_by exact readone_some_rem_lt h

/-- `_findtokens`: match the input starting at character `c` against the
candidate list.  (Python converts a string candidate set to a list of its
one-character strings first; callers below do that conversion.)  For an
empty candidate list Python returns the tuple `(token, False)`. -/
def findtokens (c : Char) (tokens : List (List Char)) (s : LexState) :
    FindResult × LexState :=
  if tokens = [] then (.emptyPair [c], s)
  else if (findtokens_pass [c] tokens).2 then (.found [c], s)
  else if (findtokens_pass [c] tokens).1 = [] then (.nomatch, s)
  else findtokens_loop [c] (findtokens_pass [c] tokens).1 s

/-- The loop of `_consumeuntil`: consume characters until the accumulated token
ends with `value` (Python `token.endswith(value)`); at end of input return
the token when `allow_eof`, else raise; raise on a raw line terminator when
`allow_eol` is off and the terminator is not part of `value`. -/
def consumeuntil_loop (value : List Char) (allow_eof allow_eol : Bool)
    (token : List Char) (s : LexState) :
    Except LexError (List Char × LexState) :=
  if value.isSuffixOf token then .ok (token, s)
  else
    match h : readone s with
    | (none, s') => if allow_eof then .ok (token, s') else .error .unexpectedEOF
    | (some c, s') =>
      if allow_eol = false ∧ (c = '\r' ∨ c = '\n') ∧ value.contains c = false then
        .error (.unexpectedEOL c)
      else consumeuntil_loop value allow_eof allow_eol (token ++ [c]) s'
termination_by s.rem
decreasing_by exact readone_some_rem_lt h

/-- `_consumeuntil`: the loop above started with an empty token. -/
def consumeuntil (value : List Char) (allow_eof allow_eol : Bool)
    (s : LexState) : Except LexError (List Char × LexState) :=
  consumeuntil_loop value allow_eof allow_eol [] s

/-- The loop of `_consumestring`.  The accumulated token starts as the quote
itself; a string closes when the current character equals the quote and the
last character of the token is not in `escape` (the Python short-circuit `and`
means `token[-1]` is only evaluated when the quote matched; on an empty
token it would raise IndexError, modelled here, though unreachable from
`read_token` where the quote is non-empty). -/
def consumestring_loop (escape quote token : List Char) (s : LexState) :
    Except LexError (List Char × LexState) :=
  match h : readone s with
  | (none, _) => .error .unexpectedEOF
  | (some c, s') =>
    if c = '\r' ∨ c = '\n' then .error (.unexpectedEOL c)
    else if [c] = quote then
      match token.getLast? with
      | none => .error .indexError
      | some l =>
        if escape.contains l = false then .ok (token ++ [c], s')
        else consumestring_loop escape quote (token ++ [c]) s'
    else consumestring_loop escape quote (token ++ [c]) s'
termination_by s.rem
decreasing_by
  · exact readone_some_rem_lt h
  · exact readone_some_rem_lt h

/-- `_consumestring`: consume a quoted string opened by `quote`; the token
(including both delimiters) is returned. -/
def consumestring (escape quote : List Char) (s : LexState) :
    Except LexError (List Char × LexState) :=
  consumestring_loop escape quote quote s

/-- The identifier-accumulation loop of `read_token` (`# Find keywords`):
keep reading while the character is in `tokenchars[0]` or `tokenchars[1]`;
the terminating read (a non-member character or the end-of-input signal) is
appended to `_oops` and the accumulated token returned. -/
def ident_loop (tc : List Char × List Char) (token : List Char)
    (s : LexState) : List Char × LexState :=
  match h : readone s with
  | (none, s') => (token, { s' with oops := s'.oops ++ [none] })
  | (some c, s') =>
    if tc.1.contains c = false ∧ tc.2.contains c = false then
      (token, { s' with oops := s'.oops ++ [some c] })
    else ident_loop tc (token ++ [c]) s'
termination_by s.rem
decreasing_by exact readone_some_rem_lt h

/-- The number-accumulation loop of `read_token` (`# Find numbers`):
keep reading while the character is in `numchars[0]` or `numchars[1]`;
a `numchars[1]` character already occurring in the accumulated token raises
`UnexpectedToken`; the terminating read is appended to `_oops`. -/
def num_loop (nc : List Char × List Char × List Char) (token : List Char)
    (s : LexState) : Except LexError (List Char × LexState) :=
  match h : readone s with
  | (none, s') => .ok (token, { s' with oops := s'.oops ++ [none] })
  | (some c, s') =>
    if nc.1.contains c = false ∧ nc.2.1.contains c = false then
      .ok (token, { s' with oops := s'.oops ++ [some c] })
    else if nc.2.1.contains c = true ∧ token.contains c = true then
      .error (.unexpectedToken c)
    else num_loop nc (token ++ [c]) s'
termination_by s.rem
decreasing_by exact readone_some_rem_lt h

/-- The scanner configuration set in `clex.__init__`.  `tokenchars` is
`(firstchars, morechars)`; `numchars` is the three-entry list
`[firstchars, ".", "-+"]` of the source. -/
structure Config where
  escape : List Char
  quotes : List Char
  whitespace : List Char
  oneline_commenters : List (List Char)
  multiline_commenters : List (List Char × List Char)
  tokenchars : List Char × List Char
  numchars : List Char × List Char × List Char
  eof : List Char

/-- The defaults of `clex.__init__` (`Char.ofNat 39` is the single-quote
character; the identifier first-character set spells the string of the source
`"abcdfeghijklmnopqrstuvwxyzABCDEFGHIJKLMNOPQRSTUVWXYZ_"` — including its
transposed `fe` — and the rest-character and number sets spell
`"0123456789"`, `"."` and `"-+"`). -/
def defaultConfig : Config where
  escape := ['\\']
  quotes := ['"', Char.ofNat 39]
  whitespace := [' ', '\t', '\r', '\n']
  oneline_commenters := [['/', '/']]
  multiline_commenters := [(['/', '*'], ['*', '/'])]
  tokenchars := (['a', 'b', 'c', 'd', 'f', 'e', 'g', 'h', 'i', 'j', 'k', 'l',
    'm', 'n', 'o', 'p', 'q', 'r', 's', 't', 'u', 'v', 'w', 'x', 'y', 'z',
    'A', 'B', 'C', 'D', 'E', 'F', 'G', 'H', 'I', 'J', 'K', 'L', 'M', 'N',
    'O', 'P', 'Q', 'R', 'S', 'T', 'U', 'V', 'W', 'X', 'Y', 'Z', '_'],
    ['0', '1', '2', '3', '4', '5', '6', '7', '8', '9'])
  numchars := (['0', '1', '2', '3', '4', '5', '6', '7', '8', '9'], ['.'],
    ['-', '+'])
  eof := []

/-- The close-marker lookup
`[x[1] for x in self.multiline_commenters if x[0] == ntoken][0]`:
`none` models the IndexError of `[0]` on an empty comprehension. -/
def lookupClose (opentok : List Char) (mlc : List (List Char × List Char)) :
    Option (List Char) :=
  ((mlc.filter (fun x => x.1 == opentok)).head?).map Prod.snd

/-- The matching loop never leaves more pending characters than it was
given: at most the characters held in its accumulated token get restored. -/
def findtokens_loop_rem (token : List Char) (tokens : List (List Char))
    (s : LexState) :
    (findtokens_loop token tokens s).2.rem ≤ s.rem + (token.length - 1) := by
  suffices H : ∀ n (token : List Char) (tokens : List (List Char)) (s : LexState),
      s.rem ≤ n →
      (findtokens_loop token tokens s).2.rem ≤ s.rem + (token.length - 1) from
    H s.rem token tokens s le_rfl
  intro n
  induction n using Nat.strong_induction_on with
  | _ n ih =>
    intro token tokens s hb
    unfold findtokens_loop
    split
    · simp [LexState.rem, List.filter_append, filter_isSome_map_some,
        filter_isSome_tail_map_some]
      omega
    · split
      · next s1 heq =>
        have h1 := readone_none_rem heq
        simp [LexState.rem, List.filter_append, filter_isSome_map_some,
          filter_isSome_tail_map_some]
        simp [LexState.rem] at h1
        omega
      · next c s1 heq =>
        have h1 := readone_some_rem heq
        split
        · show s1.rem ≤ s.rem + (token.length - 1)
          omega
        · have h2 := ih s1.rem (by omega) (token ++ [c])
            (findtokens_pass (token ++ [c]) tokens).1 s1 le_rfl
          simp at h2
          omega

/-- `_findtokens` never increases the pending measure. -/
def findtokens_rem (c : Char) (tokens : List (List Char)) (s : LexState) :
    (findtokens c tokens s).2.rem ≤ s.rem := by
  unfold findtokens
  split
  · exact le_rfl
  · split
    · exact le_rfl
    · split
      · exact le_rfl
      · have := findtokens_loop_rem [c] (findtokens_pass [c] tokens).1 s
        simpa using this

/-- The loop of `_consumeuntil` only consumes: a successful run ends with at most
as many pending characters as it started with. -/
def consumeuntil_loop_rem {value : List Char} {ae al : Bool}
    {token t : List Char} {s s' : LexState}
    (h : consumeuntil_loop value ae al token s = .ok (t, s')) :
    s'.rem ≤ s.rem := by
  suffices H : ∀ n {value : List Char} {ae al : Bool} {token t : List Char}
      {s s' : LexState}, s.rem ≤ n →
      consumeuntil_loop value ae al token s = .ok (t, s') → s'.rem ≤ s.rem from
    H s.rem le_rfl h
  intro n
  induction n using Nat.strong_induction_on with
  | _ n ih =>
    intro value ae al token t s s' hb h
    unfold consumeuntil_loop at h
    split at h
    · simp at h
      obtain ⟨h1, rfl⟩ := h
      exact le_rfl
    · split at h
      · next s1 heq =>
        have h1 := readone_none_rem heq
        split at h
        · simp at h
          obtain ⟨h2, rfl⟩ := h
          omega
        · simp at h
      · next c s1 heq =>
        have h1 := readone_some_rem heq
        split at h
        · simp at h
        · have h2 := ih s1.rem (by omega) le_rfl h
          omega

def consumeuntil_rem {value : List Char} {ae al : Bool}
    {t : List Char} {s s' : LexState}
    (h : consumeuntil value ae al s = .ok (t, s')) : s'.rem ≤ s.rem := by
  unfold consumeuntil at h
  exact consumeuntil_loop_rem h

/-- A successful `_consumestring` run only consumes, and returns a non-empty
token (it always ends with the closing quote character). -/
def consumestring_loop_ok {escape quote token t : List Char} {s s' : LexState}
    (h : consumestring_loop escape quote token s = .ok (t, s')) :
    s'.rem ≤ s.rem ∧ t ≠ [] := by
  suffices H : ∀ n {escape quote token t : List Char} {s s' : LexState},
      s.rem ≤ n →
      consumestring_loop escape quote token s = .ok (t, s') →
      s'.rem ≤ s.rem ∧ t ≠ [] from H s.rem le_rfl h
  intro n
  induction n using Nat.strong_induction_on with
  | _ n ih =>
    intro escape quote token t s s' hb h
    unfold consumestring_loop at h
    split at h
    · simp at h
    · next c s1 heq =>
      have h1 := readone_some_rem heq
      split at h
      · simp at h
      · split at h
        · split at h
          · simp at h
          · split at h
            · simp at h
              obtain ⟨h2, h3⟩ := h
              subst h2
              subst h3
              constructor
              · omega
              · simp
            · have h2 := ih s1.rem (by omega) le_rfl h
              constructor
              · omega
              · exact h2.2
        · have h2 := ih s1.rem (by omega) le_rfl h
          constructor
          · omega
          · exact h2.2

/-- The identifier loop ends with at most the pending characters it started
with, and returns a token extending its initial accumulated token. -/
def ident_loop_spec (tc : List Char × List Char) (token : List Char)
    (s : LexState) :
    (ident_loop tc token s).2.rem ≤ s.rem ∧
      ((ident_loop tc token s).1 = [] → token = []) := by
  suffices H : ∀ n (tc : List Char × List Char) (token : List Char)
      (s : LexState), s.rem ≤ n →
      (ident_loop tc token s).2.rem ≤ s.rem ∧
        ((ident_loop tc token s).1 = [] → token = []) from
    H s.rem tc token s le_rfl
  intro n
  induction n using Nat.strong_induction_on with
  | _ n ih =>
    intro tc token s hb
    unfold ident_loop
    split
    · next s1 heq =>
      have h1 := readone_none_rem heq
      constructor
      · simp [LexState.rem, List.filter_append, List.filter]
        simp [LexState.rem] at h1
        omega
      · intro h2
        exact h2
    · next c s1 heq =>
      have h1 := readone_some_rem heq
      split
      · constructor
        · simp [LexState.rem, List.filter_append, List.filter]
          simp [LexState.rem] at h1
          omega
        · intro h2
          exact h2
      · have h2 := ih s1.rem (by omega) tc (token ++ [c]) s1 le_rfl
        constructor
        · omega
        · intro h3
          have := h2.2 h3
          simp at this

/-- The number loop, on success, ends with at most the pending characters it
started with and returns a token extending its initial accumulated token. -/
def num_loop_spec {nc : List Char × List Char × List Char}
    {token t : List Char} {s s' : LexState}
    (h : num_loop nc token s = .ok (t, s')) :
    s'.rem ≤ s.rem ∧ (t = [] → token = []) := by
  suffices H : ∀ n {nc : List Char × List Char × List Char}
      {token t : List Char} {s s' : LexState}, s.rem ≤ n →
      num_loop nc token s = .ok (t, s') →
      s'.rem ≤ s.rem ∧ (t = [] → token = []) from H s.rem le_rfl h
  intro n
  induction n using Nat.strong_induction_on with
  | _ n ih =>
    intro nc token t s s' hb h
    unfold num_loop at h
    split at h
    · next s1 heq =>
      have h1 := readone_none_rem heq
      simp at h
      obtain ⟨h2, h3⟩ := h
      subst h2
      subst h3
      constructor
      · simp [LexState.rem, List.filter_append, List.filter]
        simp [LexState.rem] at h1
        omega
      · intro h2
        exact h2
    · next c s1 heq =>
      have h1 := readone_some_rem heq
      split at h
      · simp at h
        obtain ⟨h2, h3⟩ := h
        subst h2
        subst h3
        constructor
        · simp [LexState.rem, List.filter_append, List.filter]
          simp [LexState.rem] at h1
          omega
        · intro h2
          exact h2
      · split at h
        · simp at h
        · have h2 := ih s1.rem (by omega) le_rfl h
          constructor
          · omega
          · intro h3
            have := h2.2 h3
            simp at this

/-- `read_token`: skip whitespace and comments, then classify the next
token (quoted string, identifier, number, or single character); the `eof`
sentinel is returned at end of input.  Each classification attempt calls
`_findtokens` with the current first character; the caller-side test is
`ntoken is not None`, so the `(token, False)` tuple returned for an empty
candidate set counts as a match.  Python converts string candidate sets
(whitespace, quotes) to lists of one-character strings. -/
def read_token (cfg : Config) (s : LexState) :
    Except LexError (List Char × LexState) :=
  match h0 : readone s with
  | (none, s1) => .ok (cfg.eof, s1)
  | (some c, s1) =>
    match h1 : findtokens c (cfg.whitespace.map (fun w => [w])) s1 with
    | (r1, s2) =>
      if isNotNone r1 then read_token cfg s2
      else
        match h2 : findtokens c cfg.oneline_commenters s2 with
        | (r2, s3) =>
          if isNotNone r2 then
            match h3 : consumeuntil ['\n'] true true s3 with
            | .ok (_, s4) => read_token cfg s4
            | .error e => .error e
          else
            match h4 : findtokens c (cfg.multiline_commenters.map Prod.fst) s3 with
            | (r3, s4) =>
              if isNotNone r3 then
                match r3 with
                | .found m =>
                  match lookupClose m cfg.multiline_commenters with
                  | some closemarker =>
                    match h5 : consumeuntil closemarker true true s4 with
                    | .ok (_, s5) => read_token cfg s5
                    | .error e => .error e
                  | none => .error .indexError
                | _ => .error .indexError
              else
                match h6 : findtokens c (cfg.quotes.map (fun q => [q])) s4 with
                | (r4, s5) =>
                  match r4 with
                  | .found q => consumestring cfg.escape q s5
                  | .emptyPair _ =>
                    (match readone s5 with
                     | (none, _) => .error .unexpectedEOF
                     | (some c2, _) =>
                       if c2 = '\r' ∨ c2 = '\n' then .error (.unexpectedEOL c2)
                       else .error .typeError)
                  | .nomatch =>
                    if cfg.tokenchars.1.contains c = true then
                      .ok (ident_loop cfg.tokenchars [c] s5)
                    else if cfg.numchars.1.contains c = true
                        ∨ cfg.numchars.2.2.contains c = true then
                      num_loop cfg.numchars [c] s5
                    else .ok ([c], s5)
termination_by s.rem
decreasing_by
  · have e1 : s2.rem ≤ s1.rem := by
      have := findtokens_rem c (cfg.whitespace.map (fun w => [w])) s1
      rw [h1] at this
      exact this
    have e0 := readone_some_rem h0
    omega
  · have e3 : s4.rem ≤ s3.rem := consumeuntil_rem h3
    have e2 : s3.rem ≤ s2.rem := by
      have := findtokens_rem c cfg.oneline_commenters s2
      rw [h2] at this
      exact this
    have e1 : s2.rem ≤ s1.rem := by
      have := findtokens_rem c (cfg.whitespace.map (fun w => [w])) s1
      rw [h1] at this
      exact this
    have e0 := readone_some_rem h0
    omega
  · have e5 : s5.rem ≤ s4.rem := consumeuntil_rem h5
    have e4 : s4.rem ≤ s3.rem := by
      have := findtokens_rem c (cfg.multiline_commenters.map Prod.fst) s3
      rw [h4] at this
      exact this
    have e2 : s3.rem ≤ s2.rem := by
      have := findtokens_rem c cfg.oneline_commenters s2
      rw [h2] at this
      exact this
    have e1 : s2.rem ≤ s1.rem := by
      have := findtokens_rem c (cfg.whitespace.map (fun w => [w])) s1
      rw [h1] at this
      exact this
    have e0 := readone_some_rem h0
    omega

/-- Hypothesis-style form of `findtokens_rem`. -/
def findtokens_rem_of {c : Char} {tokens : List (List Char)} {s : LexState}
    {r : FindResult} {s' : LexState} (h : findtokens c tokens s = (r, s')) :
    s'.rem ≤ s.rem := by
  have := findtokens_rem c tokens s
  rw [h] at this
  exact this

set_option maxHeartbeats 1000000 in
/-- Exhaustive branch analysis of one `read_token` step, by strong
induction on the pending-input measure. -/
def read_token_master_aux : ∀ n {cfg : Config} {s : LexState} {tok : List Char}
    {s' : LexState}, s.rem ≤ n → read_token cfg s = .ok (tok, s') →
    s'.rem ≤ s.rem ∧ (tok ≠ cfg.eof → s'.rem < s.rem) ∧ (tok = cfg.eof ∨ tok ≠ []) := by
  intro n
  induction n using Nat.strong_induction_on with
  | _ n ih =>
  intro cfg s tok s' hb h
  rw [read_token.eq_def] at h
  split at h
  · rename_i s1 heq0
    obtain ⟨h1, h2⟩ := Prod.mk.injEq .. ▸ Except.ok.inj h
    subst h1
    subst h2
    exact ⟨le_of_eq (readone_none_rem heq0), fun hne => absurd rfl hne, Or.inl rfl⟩
  · rename_i c s1 heq0
    have e0 := readone_some_rem heq0
    split at h
    rename_i r1 s2 heq1
    have e1 := findtokens_rem_of heq1
    split at h
    · rename_i hnn
      obtain ⟨m1, m2, m3⟩ := ih s2.rem (by omega) le_rfl h
      exact ⟨by omega, fun _ => by omega, m3⟩
    · rename_i hnw
      split at h
      rename_i r2 s3 heq2
      have e2 := findtokens_rem_of heq2
      split at h
      · rename_i hyo
        split at h
        · rename_i t s4 hcu
          have e3 := consumeuntil_rem hcu
          obtain ⟨m1, m2, m3⟩ := ih s4.rem (by omega) le_rfl h
          exact ⟨by omega, fun _ => by omega, m3⟩
        · rename_i e hcu
          exact absurd h (by simp)
      · rename_i hno
        split at h
        rename_i r3 s4 heq3
        have e4 := findtokens_rem_of heq3
        split at h
        · rename_i hym
          split at h
          · rename_i m hfound
            split at h
            · rename_i cm hlk
              split at h
              · rename_i t s5 hcu
                have e5 := consumeuntil_rem hcu
                obtain ⟨m1, m2, m3⟩ := ih s5.rem (by omega) le_rfl h
                exact ⟨by omega, fun _ => by omega, m3⟩
              · rename_i e hcu
                exact absurd h (by simp)
            · rename_i hlk
              exact absurd h (by simp)
          · rename_i hnf
            exact absurd h (by simp)
        · rename_i hnm
          split at h
          rename_i r4 s5 heq4
          have e5 := findtokens_rem_of heq4
          split at h
          · rename_i q hfq
            unfold consumestring at h
            obtain ⟨e6, hne⟩ := consumestring_loop_ok h
            exact ⟨by omega, fun _ => by omega, Or.inr hne⟩
          · rename_i tk hep
            split at h
            · rename_i s6 hrd
              exact absurd h (by simp)
            · rename_i c2 s6 hrd
              split at h
              · rename_i hcr
                exact absurd h (by simp)
              · rename_i hcr
                exact absurd h (by simp)
          · rename_i hnq
            split at h
            · rename_i htc
              have h3 := Except.ok.inj h
              have sp := ident_loop_spec cfg.tokenchars [c] s5
              rw [h3] at sp
              simp at sp
              exact ⟨by omega, fun _ => by omega, Or.inr sp.2⟩
            · rename_i hntc
              split at h
              · rename_i hnum
                obtain ⟨e6, hne⟩ := num_loop_spec h
                refine ⟨by omega, fun _ => by omega, Or.inr fun hte => by simpa using hne hte⟩
              · rename_i hnnum
                obtain ⟨h1, h2⟩ := Prod.mk.injEq .. ▸ Except.ok.inj h
                subst h1
                subst h2
                exact ⟨by omega, fun _ => by omega, Or.inr (by simp)⟩

/-- Master property of `read_token`: success only consumes pending input,
consumes strictly when a non-`eof` token comes back, and never returns an
empty token other than the configured `eof` sentinel. -/
def read_token_master {cfg : Config} {s : LexState} {tok : List Char}
    {s' : LexState} (h : read_token cfg s = .ok (tok, s')) :
    s'.rem ≤ s.rem ∧ (tok ≠ cfg.eof → s'.rem < s.rem) ∧
      (tok = cfg.eof ∨ tok ≠ []) :=
  read_token_master_aux s.rem le_rfl h


/-- The token stack plus the character-acquisition state: a whole `clex`
instance. -/
structure ClexState where
  tokenstack : List (List Char)
  lex : LexState
deriving DecidableEq, Repr

/-- `get_token`: pop the token stack if non-empty, else read from input.
(Python appends and pops at the tail of the list; cons/head is the same LIFO
discipline.) -/
def get_token (cfg : Config) (st : ClexState) :
    Except LexError (List Char × ClexState) :=
  match st.tokenstack with
  | t :: rest => .ok (t, { st with tokenstack := rest })
  | [] =>
    match read_token cfg st.lex with
    | .error e => .error e
    | .ok (tok, s') => .ok (tok, { st with lex := s' })

/-- `push_token`: push a token onto the token stack. -/
def push_token (t : List Char) (st : ClexState) : ClexState :=
  { st with tokenstack := t :: st.tokenstack }

/-- The loop of `split`: collect tokens until one equals the `eof`
sentinel, which is dropped (`items.pop()`).  The fresh `clex` of `split`
has an empty token stack throughout, so `get_token` is `read_token`. -/
def split_loop (cfg : Config) (s : LexState) :
    Except LexError (List (List Char)) :=
  match h : read_token cfg s with
  | .error e => .error e
  | .ok (tok, s') =>
    if he : tok = cfg.eof then .ok []
    else
      match split_loop cfg s' with
      | .error e => .error e
      | .ok rest => .ok (tok :: rest)
termination_by s.rem
decreasing_by exact (read_token_master h).2.1 he

/-- Module-level `split`: tokenize a whole input string with the default
configuration. -/
def split (input : List Char) : Except LexError (List (List Char)) :=
  split_loop defaultConfig { oops := [], stream := input }

end Clex

namespace Clex

/-- The loop of `_consumestring`, started on a token headed by the quote, ends in
one of exactly three ways: `UnexpectedEOF`, `UnexpectedEOL` on a raw line
terminator, or success with a token that starts and ends with the quote. -/
theorem consumestring_loop_cases (escape : List Char) (q : Char) :
    ∀ (token : List Char) (s : LexState), token.head? = some q →
    (consumestring_loop escape [q] token s = .error .unexpectedEOF)
    ∨ (∃ c, (c = '\r' ∨ c = '\n')
        ∧ consumestring_loop escape [q] token s = .error (.unexpectedEOL c))
    ∨ (∃ tok s', consumestring_loop escape [q] token s = .ok (tok, s')
        ∧ tok.head? = some q ∧ tok.getLast? = some q) := by
  suffices H : ∀ n (token : List Char) (s : LexState), s.rem ≤ n →
      token.head? = some q →
      (consumestring_loop escape [q] token s = .error .unexpectedEOF)
      ∨ (∃ c, (c = '\r' ∨ c = '\n')
          ∧ consumestring_loop escape [q] token s = .error (.unexpectedEOL c))
      ∨ (∃ tok s', consumestring_loop escape [q] token s = .ok (tok, s')
          ∧ tok.head? = some q ∧ tok.getLast? = some q) from
    fun token s hh => H s.rem token s le_rfl hh
  intro n
  induction n using Nat.strong_induction_on with
  | _ n ih =>
  intro token s hb hh
  rw [consumestring_loop.eq_def]
  split
  · rename_i s1 heq
    exact Or.inl rfl
  · rename_i c s1 heq
    have hrem := readone_some_rem heq
    split
    · rename_i hcr
      exact Or.inr (Or.inl ⟨c, hcr, rfl⟩)
    · rename_i hncr
      split
      · rename_i hcq
        have hcq2 : c = q := by
          have := List.cons.injEq c [] q [] ▸ hcq
          simpa using hcq
        split
        · rename_i hl
          rw [List.getLast?_eq_none_iff] at hl
          subst hl
          simp at hh
        · rename_i l hl
          split
          · refine Or.inr (Or.inr ⟨token ++ [c], s1, rfl, ?_, ?_⟩)
            · cases token with
              | nil => simp at hh
              | cons a as => simpa using hh
            · rw [hcq2]
              simp
          · have := ih s1.rem (by omega) (token ++ [c]) s1 le_rfl
              (by cases token with
                  | nil => simp at hh
                  | cons a as => simpa using hh)
            exact this
      · rename_i hncq
        have := ih s1.rem (by omega) (token ++ [c]) s1 le_rfl
          (by cases token with
              | nil => simp at hh
              | cons a as => simpa using hh)
        exact this

/-- With both tolerance switches on (the comment-skipping configuration),
`_consumeuntil` never raises. -/
theorem consumeuntil_loop_tolerant (value : List Char) :
    ∀ (token : List Char) (s : LexState),
    ∃ t s', consumeuntil_loop value true true token s = .ok (t, s') := by
  suffices H : ∀ n (token : List Char) (s : LexState), s.rem ≤ n →
      ∃ t s', consumeuntil_loop value true true token s = .ok (t, s') from
    fun token s => H s.rem token s le_rfl
  intro n
  induction n using Nat.strong_induction_on with
  | _ n ih =>
  intro token s hb
  rw [consumeuntil_loop.eq_def]
  split
  · exact ⟨token, s, rfl⟩
  · split
    · rename_i s1 heq
      exact ⟨token, s1, rfl⟩
    · rename_i c s1 heq
      have hrem := readone_some_rem heq
      rw [if_neg (by simp)]
      exact ih s1.rem (by omega) (token ++ [c]) s1 le_rfl

/-- Restore invariant of the matching loop: run from a clean pushback
buffer, a failing match leaves the pending input equal to the accumulated
excess followed by the untouched remainder (with at most one trailing
end-of-input entry, appended when the loop hit end of input). -/
theorem findtokens_loop_restore :
    ∀ (token : List Char) (tokens : List (List Char)) (s : LexState),
    s.oops = [] → token ≠ [] → ∀ (s' : LexState),
    findtokens_loop token tokens s = (.nomatch, s') →
    ∃ k ≤ 1, s'.oops ++ s'.stream.map some
      = (token.drop 1).map some ++ s.stream.map some ++ List.replicate k none := by
  suffices H : ∀ n (token : List Char) (tokens : List (List Char)) (s : LexState),
      s.rem ≤ n → s.oops = [] → token ≠ [] → ∀ (s' : LexState),
      findtokens_loop token tokens s = (.nomatch, s') →
      ∃ k ≤ 1, s'.oops ++ s'.stream.map some
        = (token.drop 1).map some ++ s.stream.map some ++ List.replicate k none from
    fun token tokens s ho ht s' h => H s.rem token tokens s le_rfl ho ht s' h
  intro n
  induction n using Nat.strong_induction_on with
  | _ n ih =>
  intro token tokens s hb hoops htok s' h
  rw [findtokens_loop.eq_def] at h
  split at h
  · obtain ⟨h1, h2⟩ := Prod.mk.injEq .. ▸ h
    subst h2
    refine ⟨0, by omega, ?_⟩
    simp [hoops]
  · rename_i hne
    split at h
    · rename_i s1 heq
      obtain ⟨h1, h2⟩ := Prod.mk.injEq .. ▸ h
      subst h2
      simp only [readone, hoops] at heq
      cases hstr : s.stream with
      | nil =>
        rw [hstr] at heq
        obtain ⟨h3, h4⟩ := Prod.mk.injEq .. ▸ heq
        refine ⟨1, le_rfl, ?_⟩
        rw [← h4]
        simp [hoops, hstr]
      | cons a as =>
        rw [hstr] at heq
        simp at heq
    · rename_i c s1 heq
      have hrem := readone_some_rem heq
      have hcons : s.stream = c :: s1.stream ∧ s1.oops = [] := by
        simp only [readone, hoops] at heq
        cases hstr : s.stream with
        | nil =>
          rw [hstr] at heq
          simp at heq
        | cons a as =>
          rw [hstr] at heq
          obtain ⟨h3, h4⟩ := Prod.mk.injEq .. ▸ heq
          obtain rfl := Option.some.inj h3
          subst h4
          exact ⟨rfl, rfl⟩
      split at h
      · simp at h
      · have := ih s1.rem (by omega) (token ++ [c]) _ s1 le_rfl hcons.2 (by simp) s' h
        obtain ⟨k, hk, hrest⟩ := this
        refine ⟨k, hk, ?_⟩
        rw [hrest, hcons.1]
        cases token with
        | nil => exact absurd rfl htok
        | cons a as => simp

/-- Restore property of `_findtokens` run from a clean pushback buffer: on
failure the pending input is preserved (up to one trailing end-of-input
entry). -/
theorem findtokens_restore {c : Char} {tokens : List (List Char)}
    {s s' : LexState} (hoops : s.oops = [])
    (h : findtokens c tokens s = (.nomatch, s')) :
    ∃ k ≤ 1, s'.oops ++ s'.stream.map some
      = s.stream.map some ++ List.replicate k none := by
  rw [findtokens.eq_def] at h
  split at h
  · simp at h
  · split at h
    · simp at h
    · split at h
      · obtain ⟨h1, h2⟩ := Prod.mk.injEq .. ▸ h
        subst h2
        exact ⟨0, by omega, by simp [hoops]⟩
      · have := findtokens_loop_restore [c] _ s hoops (by simp) s' h
        simpa using this

/-- C1: the claim (and the spec) say an empty candidate set makes the
matcher report failure immediately, so that the scanner treats the first
character as not matching that category.  The code instead returns the
tuple `(token, False)` for an empty candidate set, which the
`ntoken is not None` test in `read_token` accepts as a match — with an empty whitespace
set the character 'a' is swallowed as whitespace and the eof sentinel is
returned instead of the token "a".  This contradicts the docstring of
`_findtokens` ("Returns the found token or None if not found"). -/
theorem claim1_empty_candidate_set :
    findtokens 'a' [] { oops := [], stream := [] }
      = (.emptyPair ['a'], { oops := [], stream := [] })
    ∧ isNotNone (.emptyPair ['a']) = true
    ∧ read_token { defaultConfig with whitespace := [] }
        { oops := [], stream := ['a'] }
      = .ok ([], { oops := [], stream := [] }) := by
  refine ⟨by rw [findtokens.eq_def]; simp, rfl, ?_⟩
  simp [read_token, readone, findtokens, findtokens_pass, isNotNone, defaultConfig]

/-- C2 counterexample: with candidates {"<", "<<"} and remaining input "<"
after the first '<', `_findtokens` returns "<" — not the longest exact
match "<<" the claim promises. -/
theorem claim2_longest_match_cex :
    findtokens '<' [['<'], ['<', '<']] { oops := [], stream := ['<'] }
      = (.found ['<'], { oops := [], stream := ['<'] })
    ∧ (FindResult.found ['<'] ≠ FindResult.found ['<', '<']) := by
  constructor
  · rw [findtokens.eq_def]
    simp [findtokens_pass]
  · simp

/-- C2 amended: the matcher returns the first (shortest) exact match — as
soon as the accumulated prefix equals any candidate it succeeds without
reading further, so with candidates {"<", "<<"} and input "<<" it returns
"<"; on failure it restores all characters read beyond the first to the
pushback buffer (the pending input is preserved, up to one trailing
end-of-input entry when the failure was at end of input). -/
theorem claim2_shortest_match_and_restore (c : Char)
    (tokens : List (List Char)) (s : LexState) (hoops : s.oops = []) :
    ([c] ∈ tokens → findtokens c tokens s = (.found [c], s))
    ∧ (∀ s', findtokens c tokens s = (.nomatch, s') →
        ∃ k ≤ 1, s'.oops ++ s'.stream.map some
          = s.stream.map some ++ List.replicate k none) := by
  constructor
  · intro hmem
    rw [findtokens.eq_def]
    rw [if_neg (by rintro rfl; simp at hmem)]
    simp [findtokens_pass, hmem]
  · intro s' h
    exact findtokens_restore hoops h

theorem claim2_shortest_match_witness :
    findtokens '<' [['<'], ['<', '<']] { oops := [], stream := ['<'] }
      = (.found ['<'], { oops := [], stream := ['<'] }) :=
  (claim2_shortest_match_and_restore '<' [['<'], ['<', '<']]
    { oops := [], stream := ['<'] } rfl).1 (by simp)

/-- C3 counterexample: a leading decimal point does not start a number
token — `read_token` on ".5" returns the single-character token "." and
leaves "5" unread, where the claim promises the number ".5". -/
theorem claim3_leading_dot_cex :
    read_token defaultConfig { oops := [], stream := ['.', '5'] }
      = .ok (['.'], { oops := [], stream := ['5'] })
    ∧ (['.'] : List Char) ≠ ['.', '5'] := by
  constructor
  · simp [read_token, readone, findtokens, findtokens_pass, isNotNone, defaultConfig]
  · simp

/-- C3 amended: number recognition is triggered exactly when the current
character is in `numchars[0]` (a digit) or in `numchars[2]` (a sign) — a
leading decimal point (`numchars[1]`) does not trigger it and is returned
as a single-character token. -/
theorem claim3_number_trigger (rest : List Char) :
    (read_token defaultConfig { oops := [], stream := '.' :: rest }
      = .ok (['.'], { oops := [], stream := rest }))
    ∧ (∀ c : Char, c ∈ defaultConfig.numchars.1 ∨ c ∈ defaultConfig.numchars.2.2 →
        read_token defaultConfig { oops := [], stream := c :: rest }
          = num_loop defaultConfig.numchars [c] { oops := [], stream := rest }) := by
  constructor
  · simp [read_token, readone, findtokens, findtokens_pass, isNotNone, defaultConfig]
  · intro c hc
    have hc2 : c ∈ ['0', '1', '2', '3', '4', '5', '6', '7', '8', '9', '-', '+'] := by
      simp only [defaultConfig] at hc
      simp at hc ⊢
      tauto
    fin_cases hc2 <;>
      simp [read_token, readone, findtokens, findtokens_pass, isNotNone, defaultConfig]

theorem claim3_number_trigger_witness :
    read_token defaultConfig { oops := [], stream := ['.', '5'] }
      = .ok (['.'], { oops := [], stream := ['5'] })
    ∧ read_token defaultConfig { oops := [], stream := ['+', '5'] }
      = num_loop defaultConfig.numchars ['+'] { oops := [], stream := ['5'] } :=
  ⟨(claim3_number_trigger ['5']).1,
    (claim3_number_trigger ['5']).2 '+' (by simp [defaultConfig])⟩

/-- One step of the `split` loop when `read_token` raises. -/
theorem split_loop_error {cfg : Config} {s : LexState} {e : LexError}
    (h : read_token cfg s = .error e) : split_loop cfg s = .error e := by
  rw [split_loop.eq_def]
  split
  · rename_i e1 heq
    rw [h] at heq
    obtain rfl := Except.error.inj heq
    rfl
  · rename_i tok1 s1 heq
    rw [h] at heq
    simp at heq

/-- One step of the `split` loop when `read_token` returns the eof token. -/
theorem split_loop_done {cfg : Config} {s s' : LexState}
    (h : read_token cfg s = .ok (cfg.eof, s')) : split_loop cfg s = .ok [] := by
  rw [split_loop.eq_def]
  split
  · rename_i e1 heq
    rw [h] at heq
    simp at heq
  · rename_i tok1 s1 heq
    rw [h] at heq
    obtain ⟨h1, h2⟩ := Prod.mk.injEq .. ▸ Except.ok.inj heq
    rw [dif_pos h1.symm]

/-- One step of the `split` loop on a non-eof token. -/
theorem split_loop_step {cfg : Config} {s : LexState} {tok : List Char}
    {s' : LexState} (h : read_token cfg s = .ok (tok, s')) (hne : tok ≠ cfg.eof) :
    split_loop cfg s = (match split_loop cfg s' with
      | .error e => .error e
      | .ok rest => .ok (tok :: rest)) := by
  rw [split_loop.eq_def]
  split
  · rename_i e1 heq
    rw [h] at heq
    simp at heq
  · rename_i tok1 s1 heq
    rw [h] at heq
    obtain ⟨h1, h2⟩ := Prod.mk.injEq .. ▸ Except.ok.inj heq
    subst h1
    subst h2
    rw [dif_neg hne]

/-- C4: scanning a quoted string ends in exactly one of three ways —
`UnexpectedEOF` when input ends before the closing quote, `UnexpectedEOL`
on a raw line terminator before the closing quote, or success with a token
carrying the opening and closing quote characters; in particular
`split` on the unterminated input `"abc` raises `UnexpectedEOF`. -/
theorem claim4_string_errors_and_delimiters :
    (∀ (escape : List Char) (q : Char) (s : LexState),
      consumestring escape [q] s = .error .unexpectedEOF
      ∨ (∃ c, (c = '\r' ∨ c = '\n')
          ∧ consumestring escape [q] s = .error (.unexpectedEOL c))
      ∨ (∃ tok s', consumestring escape [q] s = .ok (tok, s')
          ∧ tok.head? = some q ∧ tok.getLast? = some q))
    ∧ split ['"', 'a', 'b', 'c'] = .error .unexpectedEOF := by
  constructor
  · intro escape q s
    have := consumestring_loop_cases escape q [q] s rfl
    simpa [consumestring] using this
  · have h1 : read_token defaultConfig { oops := [], stream := ['"', 'a', 'b', 'c'] }
        = .error .unexpectedEOF := by
      simp [read_token, readone, findtokens, findtokens_pass,
        isNotNone, defaultConfig, consumestring, consumestring_loop]
    rw [split]
    rw [split_loop_error h1]

/-- C5 counterexample: the claimed `onceChars` set includes the sign
characters (`numchars[2]`), but the code continues accumulation only on
`numchars[0]` or `numchars[1]` and once-checks only `numchars[1]` — a
sign read mid-number, even one already occurring in the accumulated token,
terminates the token (pushed back) instead of continuing or raising
`UnexpectedToken`: with accumulated token "+1" and next character '+' the
loop returns "+1", and `split "+1+2"` yields ["+1", "+2"] with no error. -/
theorem claim5_sign_once_cex :
    num_loop defaultConfig.numchars ['+', '1'] { oops := [], stream := ['+', '2'] }
      = .ok (['+', '1'], { oops := [some '+'], stream := ['2'] })
    ∧ num_loop defaultConfig.numchars ['+', '1'] { oops := [], stream := ['+', '2'] }
      ≠ .error (.unexpectedToken '+')
    ∧ split ['+', '1', '+', '2'] = .ok [['+', '1'], ['+', '2']] := by
  have h1 : num_loop defaultConfig.numchars ['+', '1'] { oops := [], stream := ['+', '2'] }
      = .ok (['+', '1'], { oops := [some '+'], stream := ['2'] }) := by
    simp [num_loop, readone, defaultConfig]
  refine ⟨h1, by rw [h1]; simp, ?_⟩
  have r1 : read_token defaultConfig { oops := [], stream := ['+', '1', '+', '2'] }
      = .ok (['+', '1'], { oops := [some '+'], stream := ['2'] }) := by
    simp [read_token, readone, findtokens, findtokens_pass, isNotNone,
      defaultConfig, num_loop]
  have r2 : read_token defaultConfig { oops := [some '+'], stream := ['2'] }
      = .ok (['+', '2'], { oops := [Option.none], stream := [] }) := by
    simp [read_token, readone, findtokens, findtokens_pass, isNotNone,
      defaultConfig, num_loop]
  have r3 : read_token defaultConfig { oops := [Option.none], stream := [] }
      = .ok (defaultConfig.eof, { oops := [], stream := [] }) := by
    rw [read_token.eq_def]
    rfl
  rw [split]
  rw [split_loop_step r1 (by simp [defaultConfig]),
    split_loop_step r2 (by simp [defaultConfig]), split_loop_done r3]

/-- C5 amended: number accumulation continues while each subsequent
character is in `numchars[0]` (digits) or `numchars[1]` (the decimal
point); only a `numchars[1]` character already occurring anywhere in the
accumulated token raises `UnexpectedToken` — sign characters
(`numchars[2]`) neither continue a number nor raise: like any other
non-member, a mid-number sign terminates the token and is pushed back; in
particular `split "1.5.5"` raises `UnexpectedToken` on the second '.'. -/
theorem claim5_number_once_chars (nc : List Char × List Char × List Char)
    (token : List Char) (s s' : LexState) (c : Char)
    (h : readone s = (some c, s')) :
    ((nc.1.contains c = true ∨ nc.2.1.contains c = true) →
      ¬(nc.2.1.contains c = true ∧ token.contains c = true) →
      num_loop nc token s = num_loop nc (token ++ [c]) s')
    ∧ (nc.2.1.contains c = true → token.contains c = true →
      num_loop nc token s = .error (.unexpectedToken c))
    ∧ (nc.1.contains c = false → nc.2.1.contains c = false →
      num_loop nc token s = .ok (token, { s' with oops := s'.oops ++ [some c] }))
    ∧ split ['1', '.', '5', '.', '5'] = .error (.unexpectedToken '.') := by
  refine ⟨?_, ?_, ?_, ?_⟩
  · intro hmem hnot
    rw [num_loop.eq_def]
    split
    · rename_i s1 heq
      rw [h] at heq
      simp at heq
    · rename_i c1 s1 heq
      rw [h] at heq
      obtain ⟨h1, h2⟩ := Prod.mk.injEq .. ▸ heq
      obtain rfl := Option.some.inj h1
      subst h2
      have hC : ¬(nc.1.contains c = false ∧ nc.2.1.contains c = false) := by
        intro hC
        rcases hmem with hm | hm
        · rw [hC.1] at hm
          exact absurd hm (by simp)
        · rw [hC.2] at hm
          exact absurd hm (by simp)
      rw [if_neg hC, if_neg hnot]
  · intro hc1 hc2
    rw [num_loop.eq_def]
    split
    · rename_i s1 heq
      rw [h] at heq
      simp at heq
    · rename_i c1 s1 heq
      rw [h] at heq
      obtain ⟨h1, h2⟩ := Prod.mk.injEq .. ▸ heq
      obtain rfl := Option.some.inj h1
      subst h2
      have hC : ¬(nc.1.contains c = false ∧ nc.2.1.contains c = false) := by
        intro hC
        rw [hC.2] at hc1
        exact absurd hc1 (by simp)
      rw [if_neg hC, if_pos ⟨hc1, hc2⟩]
  · intro hc1 hc2
    rw [num_loop.eq_def]
    split
    · rename_i s1 heq
      rw [h] at heq
      simp at heq
    · rename_i c1 s1 heq
      rw [h] at heq
      obtain ⟨h1, h2⟩ := Prod.mk.injEq .. ▸ heq
      obtain rfl := Option.some.inj h1
      subst h2
      rw [if_pos ⟨hc1, hc2⟩]
  · have h1 : read_token defaultConfig { oops := [], stream := ['1', '.', '5', '.', '5'] }
        = .error (.unexpectedToken '.') := by
      simp [read_token, readone, findtokens, findtokens_pass,
        isNotNone, defaultConfig, num_loop]
    rw [split]
    rw [split_loop_error h1]

theorem claim5_number_once_chars_witness :
    num_loop defaultConfig.numchars ['1'] { oops := [], stream := ['.', '5'] }
      = num_loop defaultConfig.numchars ['1', '.'] { oops := [], stream := ['5'] }
    ∧ num_loop defaultConfig.numchars ['1', '.', '5'] { oops := [], stream := ['.', '5'] }
      = .error (.unexpectedToken '.')
    ∧ num_loop defaultConfig.numchars ['1'] { oops := [], stream := ['-', '2'] }
      = .ok (['1'], { oops := [some '-'], stream := ['2'] }) := by
  refine ⟨?_, ?_, ?_⟩
  · exact (claim5_number_once_chars defaultConfig.numchars ['1']
      { oops := [], stream := ['.', '5'] } { oops := [], stream := ['5'] } '.' rfl).1
      (by simp [defaultConfig]) (by simp [defaultConfig])
  · exact (claim5_number_once_chars defaultConfig.numchars ['1', '.', '5']
      { oops := [], stream := ['.', '5'] } { oops := [], stream := ['5'] } '.' rfl).2.1
      (by simp [defaultConfig]) (by simp)
  · exact (claim5_number_once_chars defaultConfig.numchars ['1']
      { oops := [], stream := ['-', '2'] } { oops := [], stream := ['2'] } '-' rfl).2.2.1
      (by simp [defaultConfig]) (by simp [defaultConfig])

/-- C6: a token returned by `read_token` is never empty except the
configured eof sentinel, and the same holds for `get_token` provided every
token on the caller-controlled token stack is itself non-empty or the
sentinel. -/
theorem claim6_tokens_nonempty (cfg : Config) (s : LexState) (tok : List Char)
    (s' : LexState) (st : ClexState) (tok2 : List Char) (st' : ClexState)
    (h : read_token cfg s = .ok (tok, s'))
    (hstack : ∀ t ∈ st.tokenstack, t = cfg.eof ∨ t ≠ [])
    (h2 : get_token cfg st = .ok (tok2, st')) :
    (tok = cfg.eof ∨ tok ≠ []) ∧ (tok2 = cfg.eof ∨ tok2 ≠ []) := by
  refine ⟨(read_token_master h).2.2, ?_⟩
  unfold get_token at h2
  split at h2
  · rename_i t rest heq
    obtain ⟨h3, h4⟩ := Prod.mk.injEq .. ▸ Except.ok.inj h2
    subst h3
    exact hstack t (by rw [heq]; exact List.mem_cons_self t rest)
  · rename_i heq
    split at h2
    · simp at h2
    · rename_i tk s2 heq2
      obtain ⟨h3, h4⟩ := Prod.mk.injEq .. ▸ Except.ok.inj h2
      subst h3
      exact (read_token_master heq2).2.2

theorem claim6_tokens_nonempty_witness :
    ((['a'] : List Char) = defaultConfig.eof ∨ (['a'] : List Char) ≠ [])
    ∧ ((['b'] : List Char) = defaultConfig.eof ∨ (['b'] : List Char) ≠ []) :=
  claim6_tokens_nonempty defaultConfig { oops := [], stream := ['a'] } ['a']
    { oops := [Option.none], stream := [] }
    { tokenstack := [['b']], lex := { oops := [], stream := [] } } ['b']
    { tokenstack := [], lex := { oops := [], stream := [] } }
    (by simp [read_token, readone, findtokens, findtokens_pass, isNotNone,
      defaultConfig, ident_loop])
    (by intro t ht; simp at ht; subst ht; exact Or.inr (by simp))
    (by simp [get_token])

/-- C7: a quoted string closes exactly when the current character equals
the opening quote and the immediately preceding accumulated character is
not the escape character — a single-character look-back, not a parity
count; consequently an escaped escape followed by the quote does not close
the string (here `"\\\\"` runs to `UnexpectedEOF` instead of closing at
the final quote). -/
theorem claim7_escape_lookback (escape : List Char) (q : Char)
    (token : List Char) (s s' : LexState) (c l : Char)
    (h : readone s = (some c, s')) (hnl : ¬(c = '\r' ∨ c = '\n'))
    (hlast : token.getLast? = some l) :
    (c = q → escape.contains l = false →
      consumestring_loop escape [q] token s = .ok (token ++ [c], s'))
    ∧ (c = q → escape.contains l = true →
      consumestring_loop escape [q] token s
        = consumestring_loop escape [q] (token ++ [c]) s')
    ∧ (c ≠ q →
      consumestring_loop escape [q] token s
        = consumestring_loop escape [q] (token ++ [c]) s')
    ∧ consumestring ['\\'] ['"'] { oops := [], stream := ['\\', '\\', '"'] }
      = .error .unexpectedEOF := by
  refine ⟨?_, ?_, ?_, ?_⟩
  · intro hcq hesc
    rw [consumestring_loop.eq_def]
    split
    · rename_i s2 heq
      rw [h] at heq
      simp at heq
    · rename_i c1 s1 heq
      rw [h] at heq
      obtain ⟨h1, h2⟩ := Prod.mk.injEq .. ▸ heq
      obtain rfl := Option.some.inj h1
      subst h2
      rw [if_neg hnl, if_pos (by rw [hcq])]
      split
      · rename_i hlnone
        rw [hlast] at hlnone
        simp at hlnone
      · rename_i l1 hlsome
        rw [hlast] at hlsome
        obtain rfl := Option.some.inj hlsome
        rw [if_pos hesc]
  · intro hcq hesc
    rw [consumestring_loop.eq_def]
    split
    · rename_i s2 heq
      rw [h] at heq
      simp at heq
    · rename_i c1 s1 heq
      rw [h] at heq
      obtain ⟨h1, h2⟩ := Prod.mk.injEq .. ▸ heq
      obtain rfl := Option.some.inj h1
      subst h2
      rw [if_neg hnl, if_pos (by rw [hcq])]
      split
      · rename_i hlnone
        rw [hlast] at hlnone
        simp at hlnone
      · rename_i l1 hlsome
        rw [hlast] at hlsome
        obtain rfl := Option.some.inj hlsome
        rw [if_neg (by simpa using hesc)]
  · intro hne
    rw [consumestring_loop.eq_def]
    split
    · rename_i s2 heq
      rw [h] at heq
      simp at heq
    · rename_i c1 s1 heq
      rw [h] at heq
      obtain ⟨h1, h2⟩ := Prod.mk.injEq .. ▸ heq
      obtain rfl := Option.some.inj h1
      subst h2
      rw [if_neg hnl, if_neg (by simpa using hne)]
  · simp [consumestring, consumestring_loop, readone]

theorem claim7_escape_lookback_witness :
    consumestring_loop ['\\'] ['"'] ['"', 'x'] { oops := [], stream := ['"'] }
      = .ok (['"', 'x', '"'], { oops := [], stream := [] })
    ∧ consumestring_loop ['\\'] ['"'] ['"', '\\'] { oops := [], stream := ['"'] }
      = consumestring_loop ['\\'] ['"'] ['"', '\\', '"'] { oops := [], stream := [] } := by
  constructor
  · exact (claim7_escape_lookback ['\\'] '"' ['"', 'x']
      { oops := [], stream := ['"'] } { oops := [], stream := [] } '"' 'x'
      rfl (by simp) rfl).1 rfl rfl
  · exact (claim7_escape_lookback ['\\'] '"' ['"', '\\']
      { oops := [], stream := ['"'] } { oops := [], stream := [] } '"' '\\'
      rfl (by simp) rfl).2.1 rfl rfl

/-- `read_token` unchanged by one whitespace skip. -/
theorem read_token_skip_ws {cfg : Config} {s : LexState} {c : Char}
    {s1 : LexState} {r : FindResult} {s2 : LexState}
    (h0 : readone s = (some c, s1))
    (h1 : findtokens c (cfg.whitespace.map (fun w => [w])) s1 = (r, s2))
    (hnn : isNotNone r = true) :
    read_token cfg s = read_token cfg s2 := by
  rw [read_token.eq_def]
  split
  · rename_i s' heq
    rw [h0] at heq
    simp at heq
  · rename_i c1 s1' heq
    rw [h0] at heq
    obtain ⟨hh1, hh2⟩ := Prod.mk.injEq .. ▸ heq
    obtain rfl := Option.some.inj hh1
    subst hh2
    split
    · rename_i r1 s2' heq1
      rw [h1] at heq1
      obtain ⟨hh3, hh4⟩ := Prod.mk.injEq .. ▸ heq1
      subst hh3
      subst hh4
      rw [if_pos hnn]

/-- `read_token` unchanged by one one-line-comment skip. -/
theorem read_token_skip_oneline {cfg : Config} {s : LexState} {c : Char}
    {s1 : LexState} {r1 : FindResult} {s2 : LexState} {r2 : FindResult}
    {s3 : LexState} {t : List Char} {s4 : LexState}
    (h0 : readone s = (some c, s1))
    (h1 : findtokens c (cfg.whitespace.map (fun w => [w])) s1 = (r1, s2))
    (hnw : ¬ isNotNone r1 = true)
    (h2 : findtokens c cfg.oneline_commenters s2 = (r2, s3))
    (hyo : isNotNone r2 = true)
    (hcu : consumeuntil ['\n'] true true s3 = .ok (t, s4)) :
    read_token cfg s = read_token cfg s4 := by
  rw [read_token.eq_def]
  split
  · rename_i s' heq
    rw [h0] at heq
    simp at heq
  · rename_i c1 s1' heq
    rw [h0] at heq
    obtain ⟨hh1, hh2⟩ := Prod.mk.injEq .. ▸ heq
    obtain rfl := Option.some.inj hh1
    subst hh2
    split
    · rename_i r1' s2' heq1
      rw [h1] at heq1
      obtain ⟨hh3, hh4⟩ := Prod.mk.injEq .. ▸ heq1
      subst hh3
      subst hh4
      rw [if_neg hnw]
      split
      · rename_i r2' s3' heq2
        rw [h2] at heq2
        obtain ⟨hh5, hh6⟩ := Prod.mk.injEq .. ▸ heq2
        subst hh5
        subst hh6
        rw [if_pos hyo]
        split
        · rename_i t' s4' heq3
          rw [hcu] at heq3
          obtain ⟨hh7, hh8⟩ := Prod.mk.injEq .. ▸ Except.ok.inj heq3
          subst hh8
          rfl
        · rename_i e heq3
          rw [hcu] at heq3
          simp at heq3

/-- `read_token` unchanged by one multi-line-comment skip. -/
theorem read_token_skip_multiline {cfg : Config} {s : LexState} {c : Char}
    {s1 : LexState} {r1 : FindResult} {s2 : LexState} {r2 : FindResult}
    {s3 : LexState} {m : List Char} {s4 : LexState} {cm : List Char}
    {t : List Char} {s5 : LexState}
    (h0 : readone s = (some c, s1))
    (h1 : findtokens c (cfg.whitespace.map (fun w => [w])) s1 = (r1, s2))
    (hnw : ¬ isNotNone r1 = true)
    (h2 : findtokens c cfg.oneline_commenters s2 = (r2, s3))
    (hno : ¬ isNotNone r2 = true)
    (hm : findtokens c (cfg.multiline_commenters.map Prod.fst) s3 = (.found m, s4))
    (hlk : lookupClose m cfg.multiline_commenters = some cm)
    (hcu : consumeuntil cm true true s4 = .ok (t, s5)) :
    read_token cfg s = read_token cfg s5 := by
  rw [read_token.eq_def]
  split
  · rename_i s' heq
    rw [h0] at heq
    simp at heq
  · rename_i c1 s1' heq
    rw [h0] at heq
    obtain ⟨hh1, hh2⟩ := Prod.mk.injEq .. ▸ heq
    obtain rfl := Option.some.inj hh1
    subst hh2
    split
    · rename_i r1' s2' heq1
      rw [h1] at heq1
      obtain ⟨hh3, hh4⟩ := Prod.mk.injEq .. ▸ heq1
      subst hh3
      subst hh4
      rw [if_neg hnw]
      split
      · rename_i r2' s3' heq2
        rw [h2] at heq2
        obtain ⟨hh5, hh6⟩ := Prod.mk.injEq .. ▸ heq2
        subst hh5
        subst hh6
        rw [if_neg hno]
        split
        · rename_i r3' s4' heq3
          rw [hm] at heq3
          obtain ⟨hh7, hh8⟩ := Prod.mk.injEq .. ▸ heq3
          subst hh8
          subst hh7
          rw [if_pos (show isNotNone (.found m) = true from rfl)]
          split
          · rename_i a b m2 heqX
            obtain rfl := FindResult.found.inj m2
            split
            · rename_i cm' heqlk
              rw [hlk] at heqlk
              obtain rfl := Option.some.inj heqlk
              split
              · rename_i t' s5' heqcu
                rw [hcu] at heqcu
                obtain ⟨hh9, hh10⟩ := Prod.mk.injEq .. ▸ Except.ok.inj heqcu
                subst hh10
                rfl
              · rename_i e heqcu
                rw [hcu] at heqcu
                simp at heqcu
            · rename_i heqlk
              rw [hlk] at heqlk
              simp at heqlk
          · rename_i r3x hdup hnf
            have he := hm.symm.trans hdup
            have e1 := (Prod.mk.injEq .. ▸ he).1
            subst e1
            exact (hnf m hdup rfl HEq.rfl).elim

set_option maxRecDepth 4000 in
set_option maxHeartbeats 1000000 in
/-- C8: with both tolerance switches on, the comment consumer never raises
(end of input and embedded line terminators are tolerated), and a matched
multi-line comment is discarded producing no token: `split` on
"a /* multi\nline */ b" returns ["a", "b"]. -/
theorem claim8_multiline_comment :
    (∀ (value : List Char) (s : LexState),
      ∃ t s', consumeuntil value true true s = .ok (t, s'))
    ∧ split ['a', ' ', '/', '*', ' ', 'm', 'u', 'l', 't', 'i', '\n',
        'l', 'i', 'n', 'e', ' ', '*', '/', ' ', 'b'] = .ok [['a'], ['b']] := by
  constructor
  · intro value s
    have := consumeuntil_loop_tolerant value [] s
    simpa [consumeuntil] using this
  · have h1 : read_token defaultConfig
        { oops := [], stream := ['a', ' ', '/', '*', ' ', 'm', 'u', 'l', 't', 'i', '\n', 'l', 'i', 'n', 'e', ' ', '*', '/', ' ', 'b'] }
        = .ok (['a'], { oops := [some ' '], stream := ['/', '*', ' ', 'm', 'u', 'l', 't', 'i', '\n', 'l', 'i', 'n', 'e', ' ', '*', '/', ' ', 'b'] }) := by
      simp [read_token, readone, findtokens, findtokens_pass, isNotNone,
        defaultConfig, ident_loop]
    have a1 : findtokens ' ' (defaultConfig.whitespace.map (fun w => [w]))
        { oops := [], stream := ['/', '*', ' ', 'm', 'u', 'l', 't', 'i', '\n', 'l', 'i', 'n', 'e', ' ', '*', '/', ' ', 'b'] }
        = (.found [' '], { oops := [], stream := ['/', '*', ' ', 'm', 'u', 'l', 't', 'i', '\n', 'l', 'i', 'n', 'e', ' ', '*', '/', ' ', 'b'] }) := by
      simp [findtokens, findtokens_pass, defaultConfig]
    have a0 : readone { oops := [some ' '], stream := ['/', '*', ' ', 'm', 'u', 'l', 't', 'i', '\n', 'l', 'i', 'n', 'e', ' ', '*', '/', ' ', 'b'] }
        = (some ' ', { oops := [], stream := ['/', '*', ' ', 'm', 'u', 'l', 't', 'i', '\n', 'l', 'i', 'n', 'e', ' ', '*', '/', ' ', 'b'] }) := rfl
    have hA := read_token_skip_ws a0 a1 rfl
    have b1 : findtokens '/' (defaultConfig.whitespace.map (fun w => [w]))
        { oops := [], stream := ['*', ' ', 'm', 'u', 'l', 't', 'i', '\n', 'l', 'i', 'n', 'e', ' ', '*', '/', ' ', 'b'] }
        = (.nomatch, { oops := [], stream := ['*', ' ', 'm', 'u', 'l', 't', 'i', '\n', 'l', 'i', 'n', 'e', ' ', '*', '/', ' ', 'b'] }) := by
      simp [findtokens, findtokens_pass, defaultConfig]
    have b2 : findtokens '/' defaultConfig.oneline_commenters
        { oops := [], stream := ['*', ' ', 'm', 'u', 'l', 't', 'i', '\n', 'l', 'i', 'n', 'e', ' ', '*', '/', ' ', 'b'] }
        = (.nomatch, { oops := [some '*'], stream := [' ', 'm', 'u', 'l', 't', 'i', '\n', 'l', 'i', 'n', 'e', ' ', '*', '/', ' ', 'b'] }) := by
      simp [findtokens, findtokens_pass, findtokens_loop, readone, defaultConfig]
    have b3 : findtokens '/' (defaultConfig.multiline_commenters.map Prod.fst)
        { oops := [some '*'], stream := [' ', 'm', 'u', 'l', 't', 'i', '\n', 'l', 'i', 'n', 'e', ' ', '*', '/', ' ', 'b'] }
        = (.found ['/', '*'], { oops := [], stream := [' ', 'm', 'u', 'l', 't', 'i', '\n', 'l', 'i', 'n', 'e', ' ', '*', '/', ' ', 'b'] }) := by
      simp [findtokens, findtokens_pass, findtokens_loop, readone, defaultConfig]
    have b4 : consumeuntil ['*', '/'] true true { oops := [], stream := [' ', 'm', 'u', 'l', 't', 'i', '\n', 'l', 'i', 'n', 'e', ' ', '*', '/', ' ', 'b'] }
        = .ok ([' ', 'm', 'u', 'l', 't', 'i', '\n', 'l', 'i', 'n', 'e', ' ', '*', '/'], { oops := [], stream := [' ', 'b'] }) := by
      simp [consumeuntil, consumeuntil_loop, readone]
      repeat rw [if_neg (by decide)]
      rw [if_pos (by decide)]
    have b0 : readone { oops := [], stream := ['/', '*', ' ', 'm', 'u', 'l', 't', 'i', '\n', 'l', 'i', 'n', 'e', ' ', '*', '/', ' ', 'b'] }
        = (some '/', { oops := [], stream := ['*', ' ', 'm', 'u', 'l', 't', 'i', '\n', 'l', 'i', 'n', 'e', ' ', '*', '/', ' ', 'b'] }) := rfl
    have hB := read_token_skip_multiline b0 b1
      (by simp [isNotNone]) b2 (by simp [isNotNone]) b3 rfl b4
    have c1 : findtokens ' ' (defaultConfig.whitespace.map (fun w => [w]))
        { oops := [], stream := ['b'] }
        = (.found [' '], { oops := [], stream := ['b'] }) := by
      simp [findtokens, findtokens_pass, defaultConfig]
    have c0 : readone { oops := [], stream := [' ', 'b'] }
        = (some ' ', { oops := [], stream := ['b'] }) := rfl
    have hC := read_token_skip_ws c0 c1 rfl
    have hD : read_token defaultConfig { oops := [], stream := ['b'] }
        = .ok (['b'], { oops := [Option.none], stream := [] }) := by
      simp [read_token, readone, findtokens, findtokens_pass, isNotNone,
        defaultConfig, ident_loop]
    have h2 : read_token defaultConfig
        { oops := [some ' '], stream := ['/', '*', ' ', 'm', 'u', 'l', 't', 'i', '\n', 'l', 'i', 'n', 'e', ' ', '*', '/', ' ', 'b'] }
        = .ok (['b'], { oops := [Option.none], stream := [] }) :=
      (hA.trans (hB.trans (hC.trans hD)))
    have h3 : read_token defaultConfig { oops := [Option.none], stream := [] }
        = .ok (defaultConfig.eof, { oops := [], stream := [] }) := by
      rw [read_token.eq_def]
      rfl
    rw [split]
    rw [split_loop_step h1 (by simp [defaultConfig]),
      split_loop_step h2 (by simp [defaultConfig]), split_loop_done h3]

/-- C9 counterexample: the claim says the end-of-input restore adds no
entry to the pushback buffer; reading the identifier "a" from a buffer
that started empty in fact leaves one (empty) entry in the buffer. -/
theorem claim9_pushback_noop_cex :
    read_token defaultConfig { oops := [], stream := ['a'] }
      = .ok (['a'], { oops := [Option.none], stream := [] })
    ∧ ([Option.none] : List (Option Char)) ≠ [] := by
  constructor
  · simp [read_token, readone, findtokens, findtokens_pass, isNotNone,
      defaultConfig, ident_loop]
  · simp

/-- C9 amended: when identifier accumulation ends at end of input, the
empty sentinel read as terminator IS appended to the pushback buffer as
one entry (the buffer gains exactly one empty entry and no character
entry); the restore is observationally a no-op — replaying that entry
yields the end-of-input signal again, so the next `read_token` returns the
eof sentinel with the entry consumed. -/
theorem claim9_pushback_eof_entry (tc : List Char × List Char)
    (token : List Char) (s s1 : LexState) (h : readone s = (none, s1)) :
    ident_loop tc token s = (token, { s1 with oops := s1.oops ++ [Option.none] })
    ∧ (∀ cfg : Config, read_token cfg { oops := [Option.none], stream := [] }
        = .ok (cfg.eof, { oops := [], stream := [] })) := by
  constructor
  · rw [ident_loop.eq_def]
    split
    · rename_i s2 heq
      rw [h] at heq
      obtain ⟨h1, h2⟩ := Prod.mk.injEq .. ▸ heq
      subst h2
      rfl
    · rename_i c s2 heq
      rw [h] at heq
      simp at heq
  · intro cfg
    rw [read_token.eq_def]
    rfl

theorem claim9_pushback_eof_entry_witness :
    ident_loop defaultConfig.tokenchars ['a'] { oops := [], stream := [] }
      = (['a'], { oops := [Option.none], stream := [] })
    ∧ read_token defaultConfig { oops := [Option.none], stream := [] }
      = .ok (defaultConfig.eof, { oops := [], stream := [] }) := by
  have := claim9_pushback_eof_entry defaultConfig.tokenchars ['a']
    { oops := [], stream := [] } { oops := [], stream := [] } rfl
  exact ⟨this.1, this.2 defaultConfig⟩

set_option maxRecDepth 8000 in
set_option maxHeartbeats 1000000 in
/-- C10: a one-line comment is terminated only by consuming a newline or
reaching end of input — a carriage return is consumed as ordinary comment
content; for a one-line comment whose trailing text contains a carriage
return but no newline, the whole rest of the input is discarded and
`get_token` returns the eof sentinel. -/
theorem claim10_oneline_comment_cr (tok : List Char) (s s' : LexState)
    (h : readone s = (some '\r', s'))
    (hnotend : ['\n'].isSuffixOf tok = false) :
    consumeuntil_loop ['\n'] true true tok s
      = consumeuntil_loop ['\n'] true true (tok ++ ['\r']) s'
    ∧ get_token defaultConfig
        { tokenstack := [],
          lex := { oops := [], stream := ['/', '/', ' ', 'x', '\r', 'y'] } }
      = .ok ([], { tokenstack := [], lex := { oops := [], stream := [] } }) := by
  constructor
  · rw [consumeuntil_loop.eq_def]
    rw [if_neg (by simp [hnotend])]
    split
    · rename_i s2 heq
      rw [h] at heq
      simp at heq
    · rename_i c1 s1 heq
      rw [h] at heq
      obtain ⟨h1, h2⟩ := Prod.mk.injEq .. ▸ heq
      obtain rfl := Option.some.inj h1
      subst h2
      rw [if_neg (by simp)]
  · have d0 : readone { oops := [], stream := ['/', '/', ' ', 'x', '\r', 'y'] }
        = (some '/', { oops := [], stream := ['/', ' ', 'x', '\r', 'y'] }) := rfl
    have d1 : findtokens '/' (defaultConfig.whitespace.map (fun w => [w]))
        { oops := [], stream := ['/', ' ', 'x', '\r', 'y'] }
        = (.nomatch, { oops := [], stream := ['/', ' ', 'x', '\r', 'y'] }) := by
      simp [findtokens, findtokens_pass, defaultConfig]
    have d2 : findtokens '/' defaultConfig.oneline_commenters
        { oops := [], stream := ['/', ' ', 'x', '\r', 'y'] }
        = (.found ['/', '/'], { oops := [], stream := [' ', 'x', '\r', 'y'] }) := by
      simp [findtokens, findtokens_pass, findtokens_loop, readone, defaultConfig]
    have d4 : consumeuntil ['\n'] true true { oops := [], stream := [' ', 'x', '\r', 'y'] }
        = .ok ([' ', 'x', '\r', 'y'], { oops := [], stream := [] }) := by
      simp [consumeuntil, consumeuntil_loop, readone]
      repeat rw [if_neg (by decide)]
    have hE := read_token_skip_oneline d0 d1 (by simp [isNotNone]) d2 rfl d4
    have hF : read_token defaultConfig { oops := [], stream := [] }
        = .ok (defaultConfig.eof, { oops := [], stream := [] }) := by
      rw [read_token.eq_def]
      rfl
    have hrt := hE.trans hF
    simp only [get_token]
    rw [hrt]
    rfl

theorem claim10_oneline_comment_cr_witness :
    consumeuntil_loop ['\n'] true true [' '] { oops := [], stream := ['\r', 'y'] }
      = consumeuntil_loop ['\n'] true true [' ', '\r'] { oops := [], stream := ['y'] } :=
  (claim10_oneline_comment_cr [' '] { oops := [], stream := ['\r', 'y'] }
    { oops := [], stream := ['y'] } rfl rfl).1

end Clex
